import Mathlib

/-!
Shallow embedding of the audio core of the DubmixAI repository
(`src/services/audioService.ts`, class `AudioService`), together with
theorems checking the natural-language specification against it.

Sample values are modelled as exact rationals (the JavaScript doubles that
actually occur in the claims are all dyadic rationals, and every property
at stake survives exact arithmetic); the special floating-point values that
the WAV encoder can meet (`NaN`, infinities) are modelled explicitly by the
`JSNum` type.  Buffers are lists of per-channel sample lists.
-/

/-- The value type of the repository's audio code: a decoded audio buffer.
`sampleRate` is in Hz, `channels` holds one sample list per channel
(`AudioBuffer.getChannelData(i)` in the source). -/
structure AudioBuffer where
  sampleRate : ℚ
  channels : List (List ℚ)
deriving DecidableEq, Repr

/-- `buffer.length` in the source: the number of frames, read off channel 0. -/
def AudioBuffer.frameCount (b : AudioBuffer) : ℕ :=
  (b.channels.headD []).length

/-- `buffer.numberOfChannels` in the source. -/
def AudioBuffer.numberOfChannels (b : AudioBuffer) : ℕ :=
  b.channels.length

/-- `buffer.duration` in the source: `length / sampleRate`, derived. -/
def AudioBuffer.duration (b : AudioBuffer) : ℚ :=
  (b.frameCount : ℚ) / b.sampleRate

/-- A well-formed buffer: positive sample rate, at least one channel, and
all channels of the same length (the invariant the Web Audio
`AudioBuffer` guarantees for the source code). -/
def AudioBuffer.wellFormed (b : AudioBuffer) : Prop :=
  0 < b.sampleRate ∧ 0 < b.channels.length ∧
    ∀ c ∈ b.channels, c.length = b.frameCount

instance (b : AudioBuffer) : Decidable b.wellFormed := by
  unfold AudioBuffer.wellFormed; infer_instance

/-! ## SilenceTrimmer (`AudioService.trimSilence`) -/

/-- The silence threshold hard-coded in `trimSilence` (`const threshold = 0.005`). -/
def silenceThreshold : ℚ := 5 / 1000

/-- The forward scan of `trimSilence`:
`while (start < len && Math.abs(data[start]) < threshold) start++`.
Returns the final value of `start` for the scanned list. -/
def scanStart (θ : ℚ) : List ℚ → ℕ
  | [] => 0
  | x :: rest => if |x| < θ then scanStart θ rest + 1 else 0

/-- The backward scan of `trimSilence`:
`while (end > start && Math.abs(data[end - 1]) < threshold) end--`,
with `e` the current value of `end`.  Returns the final value of `end`. -/
def scanEnd (data : List ℚ) (θ : ℚ) (start : ℕ) : ℕ → ℕ
  | 0 => 0
  | e + 1 =>
    if start < e + 1 ∧ |data.getD e 0| < θ then scanEnd data θ start e
    else e + 1

/-- Embedding of `AudioService.trimSilence`.  Scans channel 0 for the first
and last sample at or above the threshold; if `start >= end` the input is
returned unchanged, otherwise frames `[start, end)` of every channel are
copied into a fresh buffer with the same sample rate. -/
def trimSilence (b : AudioBuffer) : AudioBuffer :=
  let data := b.channels.headD []
  let len := data.length
  let start := scanStart silenceThreshold data
  let e := scanEnd data silenceThreshold start len
  if e ≤ start then b
  else
    { sampleRate := b.sampleRate,
      channels := b.channels.map (fun c => (c.drop start).take (e - start)) }

/-! ## Decoder (`AudioService.rawPcmToAudioBuffer`) -/

/-- Little-endian signed 16-bit integer from two bytes, as `Int16Array`
reads them on the (little-endian) platforms the source targets. -/
def int16OfLe (lo hi : ℕ) : ℤ :=
  let v := lo + 256 * hi
  if v < 32768 then (v : ℤ) else (v : ℤ) - 65536

/-- Pair up a byte list into little-endian signed 16-bit samples
(`new Int16Array(arrayBuffer)`).  A trailing odd byte never occurs on the
success path (`rawPcmToAudioBuffer` fails first). -/
def bytesToInt16s : List ℕ → List ℤ
  | lo :: hi :: rest => int16OfLe lo hi :: bytesToInt16s rest
  | _ => []

/-- Embedding of `AudioService.rawPcmToAudioBuffer`: interprets the bytes
as little-endian signed 16-bit mono PCM, scaling each sample by
`1 / 32768.0`.  Two failure paths, both `none` here:
`new Int16Array(arrayBuffer)` throws a `RangeError` when the byte length
is odd, and `createBuffer(1, frameCount, sampleRate)` throws a
`NotSupportedError` when `frameCount` is zero (empty input). -/
def rawPcmToAudioBuffer (bytes : List ℕ) (sampleRate : ℚ) : Option AudioBuffer :=
  if bytes.length % 2 = 0 then
    if bytes.length / 2 = 0 then none
    else
      some { sampleRate := sampleRate,
             channels := [(bytesToInt16s bytes).map (fun (s : ℤ) => (s : ℚ) / 32768)] }
  else none

/-! ## WaveEncoder (`AudioService.bufferToWave`) -/

/-- A JavaScript number as the WAV encoder can meet it: an exact rational,
`NaN`, or an infinity.  (`channels[i][pos]` can be `undefined`, hence `NaN`
after `Math.min`, when read out of range.) -/
inductive JSNum where
  | nan : JSNum
  | posInf : JSNum
  | negInf : JSNum
  | num : ℚ → JSNum
deriving DecidableEq, Repr

/-- `Math.min(a, x)` for a rational literal `a`: `NaN` propagates. -/
def jsMin (a : ℚ) : JSNum → JSNum
  | .nan => .nan
  | .posInf => .num a
  | .negInf => .negInf
  | .num q => .num (min a q)

/-- `Math.max(a, x)` for a rational literal `a`: `NaN` propagates. -/
def jsMax (a : ℚ) : JSNum → JSNum
  | .nan => .nan
  | .posInf => .posInf
  | .negInf => .num a
  | .num q => .num (max a q)

/-- JavaScript number truncation toward zero (the integer part taken by
`ToInt32` before wrapping). -/
def jsTrunc (q : ℚ) : ℤ :=
  if 0 ≤ q then ⌊q⌋ else ⌈q⌉

/-- Wrap an integer into the signed 32-bit range, as `| 0` does. -/
def wrap32 (t : ℤ) : ℤ :=
  (t + 2 ^ 31) % 2 ^ 32 - 2 ^ 31

/-- `x | 0` in JavaScript: `NaN` and the infinities go to `0`, numbers are
truncated toward zero and wrapped into signed 32-bit range. -/
def jsToInt32 : JSNum → ℤ
  | .num q => wrap32 (jsTrunc q)
  | _ => 0

/-- The clamp line of `bufferToWave`:
`sample = Math.max(-1, Math.min(1, channels[i][pos]))`. -/
def wavClamp (x : JSNum) : JSNum :=
  jsMax (-1) (jsMin 1 x)

/-- The scale line of `bufferToWave`:
`(0.5 + sample < 0 ? sample * 32768 : sample * 32767)`.  Note the
condition compares `0.5 + sample` with `0`, i.e. the switch happens at
`sample < -0.5`, not at `sample < 0`; on `NaN` the comparison is false
and the product is again `NaN`. -/
def wavScale : JSNum → JSNum
  | .num q => .num (if 1 / 2 + q < 0 then q * 32768 else q * 32767)
  | x => x

/-- The complete per-sample conversion of `bufferToWave`: clamp, scale,
truncate with `| 0`. -/
def wavSample (x : JSNum) : ℤ :=
  jsToInt32 (wavScale (wavClamp x))

/-- A 16-bit value as two little-endian bytes (`DataView.setUint16 ... true`). -/
def u16le (n : ℕ) : List ℕ :=
  [n % 256, n / 256 % 256]

/-- A 32-bit value as four little-endian bytes (`DataView.setUint32 ... true`). -/
def u32le (n : ℕ) : List ℕ :=
  [n % 256, n / 256 % 256, n / 2 ^ 16 % 256, n / 2 ^ 24 % 256]

/-- `DataView.setInt16 v true`: the two's-complement low 16 bits of `v`,
little-endian. -/
def i16le (v : ℤ) : List ℕ :=
  u16le (v % 65536).toNat

/-- `ToUint32` of a JavaScript number, used by `setUint32` on the (possibly
fractional) sample rate. -/
def ratToUint32 (q : ℚ) : ℕ :=
  (jsTrunc q % 2 ^ 32).toNat

/-- Reading `channels[i][pos]`: out-of-range access yields `undefined`,
which the subsequent `Math.min` turns into `NaN`. -/
def channelSampleJS (c : List ℚ) (pos : ℕ) : JSNum :=
  if pos < c.length then .num (c.getD pos 0) else .nan

/-- Embedding of `AudioService.bufferToWave buffer len`: the 44-byte RIFF /
WAVE header followed by the data chunk.  The source's sample loop
`while (pos < len)` reuses the cursor `pos`, which the header writes left
at 44, as its first FRAME index: frames `44 .. len - 1` are converted and
written contiguously from byte offset 44 (`view.setInt16(44 + offset, …)`),
and the final `min(44, len)` frames' worth of data-chunk bytes are never
written, remaining zero because the `ArrayBuffer` is zero-initialized
(for `len ≤ 44` the whole data chunk is zero). -/
def bufferToWave (b : AudioBuffer) (len : ℕ) : List ℕ :=
  let numOfChan := b.numberOfChannels
  let byteLength := len * numOfChan * 2 + 44
  u32le 0x46464952 ++
  u32le (byteLength - 8) ++
  u32le 0x45564157 ++
  u32le 0x20746d66 ++
  u32le 16 ++
  u16le 1 ++
  u16le numOfChan ++
  u32le (ratToUint32 b.sampleRate) ++
  u32le (ratToUint32 (b.sampleRate * 2 * numOfChan)) ++
  u16le (numOfChan * 2) ++
  u16le 16 ++
  u32le 0x61746164 ++
  u32le (byteLength - 44) ++
  ((List.range (len - 44)).flatMap (fun k =>
    (List.range numOfChan).flatMap (fun i =>
      i16le (wavSample (channelSampleJS (b.channels.getD i []) (44 + k))))) ++
    List.replicate (len * numOfChan * 2 - (len - 44) * numOfChan * 2) 0)

/-! ## TimelineCompositor (`AudioService.exportMix`)

The source builds an `OfflineAudioContext(2, totalDuration * sampleRate,
sampleRate)`, optionally connects the original through a gain node, and for
every segment with a non-null `audioBuffer` plays it from `startTime` at
`playbackRate = rate` with `preservesPitch = true`.  The arithmetic below
(total duration, the hard-coded stereo channel count, the WebIDL truncation
of the fractional frame count, the rate selection, and the rendered
duration `audioDuration / rate` of a pitch-preserving rate change) is taken
from the source; the per-sample values produced by the platform's renderer
are modelled by nearest-sample lookup with mono-to-stereo up-mixing, the
one place a platform collaborator's interpolation had to be fixed by
choice. -/

/-- A dub segment as `exportMix` receives it. -/
structure Segment where
  startTime : ℚ
  endTime : ℚ
  audioBuffer : Option AudioBuffer
deriving DecidableEq, Repr

/-- The `totalDuration` loop of `exportMix`:
`let totalDuration = originalBuffer.duration;
segments.forEach(seg => { if (seg.endTime > totalDuration) ... })`. -/
def totalDuration (original : AudioBuffer) (segs : List Segment) : ℚ :=
  segs.foldl (fun acc seg => if seg.endTime > acc then seg.endTime else acc)
    original.duration

/-- The frame count of the `OfflineAudioContext`: the WebIDL
`unsigned long` conversion truncates the fractional product
`totalDuration * sampleRate` toward zero. -/
def masterLen (original : AudioBuffer) (segs : List Segment) : ℕ :=
  (⌊totalDuration original segs * original.sampleRate⌋).toNat

/-- The playback-rate selection of `exportMix`:
`let rate = 1.0; if (originalDuration > slotDuration) rate =
originalDuration / slotDuration;`.  A segment that is shorter than its
slot keeps rate `1`; no tolerance band exists in the code. -/
def segmentRate (seg : Segment) : ℚ :=
  match seg.audioBuffer with
  | none => 1
  | some a =>
    let slotDuration := seg.endTime - seg.startTime
    let originalDuration := a.duration
    if originalDuration > slotDuration then originalDuration / slotDuration
    else 1

/-- The rendered duration of a segment: a source node playing a buffer of
duration `d` at `playbackRate = r` with `preservesPitch` occupies `d / r`
seconds of the rendered timeline (`0` for a null segment). -/
def renderedDuration (seg : Segment) : ℚ :=
  match seg.audioBuffer with
  | none => 0
  | some a => a.duration / segmentRate seg

/-- Channel lookup with Web Audio up/down-mix to the stereo destination: a
mono buffer feeds both output channels, extra channels are clipped to the
last one; out-of-range frames are silence. -/
def sampleAt (a : AudioBuffer) (ch i : ℕ) : ℚ :=
  (a.channels.getD (min ch (a.channels.length - 1)) []).getD i 0

/-- The contribution of one segment's source node to output channel `ch`
at frame `i` of the rendered master (sample rate `sr`).  A null segment
contributes silence.  A playing segment occupies the frames
`[⌊startTime * sr⌋, ⌊startTime * sr⌋ + ⌊renderedDuration * sr⌋)`; its
samples are modelled by nearest-sample lookup in the source buffer at the
rate-scaled position. -/
def segmentContribution (sr : ℚ) (ch : ℕ) (seg : Segment) (i : ℕ) : ℚ :=
  match seg.audioBuffer with
  | none => 0
  | some a =>
    let r := segmentRate seg
    let startFrame := (⌊seg.startTime * sr⌋).toNat
    let len := (⌊renderedDuration seg * sr⌋).toNat
    if startFrame ≤ i ∧ i < startFrame + len then
      sampleAt a ch ((⌊((i : ℚ) - (startFrame : ℚ)) * r * a.sampleRate / sr⌋).toNat)
    else 0

/-- One sample of the rendered master: the (optional) background bed plus
the sum of all segment contributions, exactly as the offline context sums
the nodes connected to its destination. -/
def mixSample (original : AudioBuffer) (segs : List Segment)
    (backgroundVolume : ℚ) (ch i : ℕ) : ℚ :=
  (if backgroundVolume > 0 then backgroundVolume * sampleAt original ch i else 0) +
    segs.foldl
      (fun acc seg => acc + segmentContribution original.sampleRate ch seg i) 0

/-- The rendered master buffer of `exportMix`: two channels (hard-coded
`2` in the `OfflineAudioContext` constructor), `masterLen` frames at the
original's sample rate. -/
def exportMixRendered (original : AudioBuffer) (segs : List Segment)
    (backgroundVolume : ℚ) : AudioBuffer :=
  { sampleRate := original.sampleRate,
    channels := (List.range 2).map (fun ch =>
      (List.range (masterLen original segs)).map
        (mixSample original segs backgroundVolume ch)) }

/-- `exportMix` itself: render, then serialize with
`bufferToWave(renderedBuffer, renderedBuffer.length)`. -/
def exportMix (original : AudioBuffer) (segs : List Segment)
    (backgroundVolume : ℚ) : List ℕ :=
  let rendered := exportMixRendered original segs backgroundVolume
  bufferToWave rendered rendered.frameCount

/-! ## TimeStretchEngine

Modelled from the spec: no pitch-preserving time-stretch implementation is
present under `src/` (the shipped `exportMix` delegates the rate change to
the platform's `playbackRate` / `preservesPitch` path), so the granular
overlap-add engine of spec section 4.3 — grain length `G = 2048`, output
hop `G / 2`, input hop `⌊(G / 2) * factor⌋`, output length
`⌊inputFrameCount / factor⌋`, triangular window, fixed attenuation, and
the `InputTooShort` failure for inputs shorter than one grain — is
modelled here from the spec's words. -/

/-- Modelled from the spec: the stretch-grain length constant `G`. -/
def grainLength : ℕ := 2048

/-- Modelled from the spec: the error kinds the stretch engine can raise. -/
inductive StretchError where
  | inputTooShort : StretchError
deriving DecidableEq, Repr

/-- Modelled from the spec: a triangular window of length `G`. -/
def triWindow (G j : ℕ) : ℚ :=
  if 2 * j ≤ G then (2 * j : ℚ) / (G : ℚ) else (2 * (G - j) : ℚ) / (G : ℚ)

/-- Modelled from the spec: add one windowed grain, read at `r`, into the
output at `w` (overlap-add: addition, not overwrite). -/
def addGrain (input out : ℕ → ℚ) (r w G : ℕ) : ℕ → ℚ := fun i =>
  if w ≤ i ∧ i < w + G then out i + triWindow G (i - w) * input (r + (i - w))
  else out i

/-- Modelled from the spec: the overlap-add walk
`while r + G <= n && w + G <= outLen`, advancing `r` by the input hop and
`w` by the output hop; `fuel` bounds the iteration count. -/
def olaWalk (input : ℕ → ℚ) (n outLen hin hout G : ℕ) :
    ℕ → ℕ → ℕ → (ℕ → ℚ) → (ℕ → ℚ)
  | 0, _, _, out => out
  | fuel + 1, r, w, out =>
    if r + G ≤ n ∧ w + G ≤ outLen then
      olaWalk input n outLen hin hout G fuel (r + hin) (w + hout)
        (addGrain input out r w G)
    else out

/-- Modelled from the spec: `timeStretch(buffer, factor)`.  Fails with
`InputTooShort` when the input holds less than one grain; factor `1` is
the identity; otherwise granular overlap-add over channel 0, the result
replicated across all output channels, with a fixed attenuation constant. -/
def timeStretch (b : AudioBuffer) (factor : ℚ) :
    Except StretchError AudioBuffer :=
  let n := b.frameCount
  if n < grainLength then .error .inputTooShort
  else if factor = 1 then .ok b
  else
    let hout := grainLength / 2
    let hin := (⌊(hout : ℚ) * factor⌋).toNat
    let outLen := (⌊(n : ℚ) / factor⌋).toNat
    let input : ℕ → ℚ := fun i => (b.channels.headD []).getD i 0
    let out := olaWalk input n outLen hin hout grainLength
      (outLen + 1) 0 0 (fun _ => 0)
    .ok { sampleRate := b.sampleRate,
          channels := b.channels.map (fun _ =>
            (List.range outLen).map (fun i => (9 / 10 : ℚ) * out i)) }

/-! ## Helper lemmas about the trim scans -/

lemma scanStart_le (θ : ℚ) : ∀ d : List ℚ, scanStart θ d ≤ d.length
  | [] => by simp [scanStart]
  | x :: rest => by
    by_cases h : |x| < θ
    · simpa [scanStart, h] using scanStart_le θ rest
    · simp [scanStart, h]

lemma scanStart_getD (θ : ℚ) :
    ∀ d : List ℚ, scanStart θ d < d.length → ¬ |d.getD (scanStart θ d) 0| < θ
  | [], h => by simp [scanStart] at h
  | x :: rest, h => by
    by_cases hx : |x| < θ
    · simp only [scanStart, if_pos hx] at h ⊢
      simpa using scanStart_getD θ rest (by simpa using h)
    · simp [scanStart, hx]

lemma scanStart_eq_length (θ : ℚ) :
    ∀ d : List ℚ, (∀ x ∈ d, |x| < θ) → scanStart θ d = d.length
  | [], _ => by simp [scanStart]
  | x :: rest, h => by
    have hx : |x| < θ := h x (by simp)
    have := scanStart_eq_length θ rest (fun y hy => h y (by simp [hy]))
    simp [scanStart, hx, this]

lemma scanEnd_le (d : List ℚ) (θ : ℚ) (s : ℕ) :
    ∀ e, scanEnd d θ s e ≤ e
  | 0 => by simp [scanEnd]
  | e + 1 => by
    by_cases h : s < e + 1 ∧ |d.getD e 0| < θ
    · simp only [scanEnd, if_pos h]
      exact le_trans (scanEnd_le d θ s e) (Nat.le_succ e)
    · simp only [scanEnd, if_neg h]
      exact le_refl _

lemma scanEnd_boundary (d : List ℚ) (θ : ℚ) (s : ℕ) :
    ∀ e, s < scanEnd d θ s e → ¬ |d.getD (scanEnd d θ s e - 1) 0| < θ
  | 0, h => by simp [scanEnd] at h
  | e + 1, h => by
    by_cases hc : s < e + 1 ∧ |d.getD e 0| < θ
    · simp only [scanEnd, if_pos hc] at h ⊢
      exact scanEnd_boundary d θ s e h
    · simp only [scanEnd, if_neg hc] at h ⊢
      have : ¬ |d.getD e 0| < θ := fun hd => hc ⟨h, hd⟩
      simpa using this

lemma scanEnd_gt (d : List ℚ) (θ : ℚ) (s : ℕ)
    (hs : ¬ |d.getD s 0| < θ) :
    ∀ e, s < e → s < scanEnd d θ s e
  | 0, h => absurd h (by simp)
  | e + 1, h => by
    by_cases hc : s < e + 1 ∧ |d.getD e 0| < θ
    · simp only [scanEnd, if_pos hc]
      rcases Nat.lt_or_ge s e with hse | hse
      · exact scanEnd_gt d θ s hs e hse
      · have : s = e := le_antisymm (Nat.lt_succ_iff.mp h) hse
        exact absurd (this ▸ hc.2) hs
    · simp only [scanEnd, if_neg hc]
      exact h

/-! ## Helper lemmas about the PCM byte pairing -/

lemma bytesToInt16s_length :
    ∀ bytes : List ℕ, (bytesToInt16s bytes).length = bytes.length / 2
  | [] => by simp [bytesToInt16s]
  | [_] => by simp [bytesToInt16s]
  | _ :: _ :: rest => by
    simp only [bytesToInt16s, List.length_cons, bytesToInt16s_length rest]
    omega

lemma bytesToInt16s_getD :
    ∀ (bytes : List ℕ) (i : ℕ), 2 * i + 1 < bytes.length →
      (bytesToInt16s bytes).getD i 0 =
        int16OfLe (bytes.getD (2 * i) 0) (bytes.getD (2 * i + 1) 0)
  | [], i, h => by simp at h
  | [_], i, h => by simp at h
  | a :: b :: rest, 0, _ => by simp [bytesToInt16s]
  | a :: b :: rest, i + 1, h => by
    have h' : 2 * i + 1 < rest.length := by simp at h; omega
    have heq := bytesToInt16s_getD rest i h'
    have h2 : 2 * (i + 1) = 2 * i + 1 + 1 := by omega
    have h3 : 2 * (i + 1) + 1 = 2 * i + 1 + 1 + 1 := by omega
    simp only [bytesToInt16s, List.getD_cons_succ, h2, h3, heq]

/-- C5 counterexample: the empty byte sequence has even length, yet the
decoder fails — `createBuffer(1, 0, sampleRate)` throws a
`NotSupportedError` for a zero-frame buffer — where the claim asserts a
successful decode producing a zero-frame buffer. -/
theorem rawPcm_decode_counterexample :
    ([] : List ℕ).length % 2 = 0 ∧
      rawPcmToAudioBuffer [] 24000 = none := ⟨rfl, rfl⟩

/-- C5 amended: `rawPcmToAudioBuffer` interprets an even-length, nonempty
byte sequence as contiguous little-endian signed 16-bit mono samples,
maps each sample `s` to `s / 32768.0`, and produces a single-channel
buffer with `frameCount = byteLength / 2` at the given sample rate; it
fails when the byte length is odd, and also when it is zero (the
zero-frame `createBuffer` call throws). -/
theorem rawPcm_decode_spec (bytes : List ℕ) (sr : ℚ) :
    (bytes.length % 2 ≠ 0 → rawPcmToAudioBuffer bytes sr = none) ∧
    (bytes.length = 0 → rawPcmToAudioBuffer bytes sr = none) ∧
    (bytes.length % 2 = 0 → bytes.length ≠ 0 →
      ∃ b, rawPcmToAudioBuffer bytes sr = some b ∧
        b.numberOfChannels = 1 ∧ b.sampleRate = sr ∧
        b.frameCount = bytes.length / 2 ∧
        ∀ i, i < bytes.length / 2 →
          (b.channels.headD []).getD i 0 =
            (int16OfLe (bytes.getD (2 * i) 0) (bytes.getD (2 * i + 1) 0) : ℚ)
              / 32768) := by
  refine ⟨?_, ?_, ?_⟩
  · intro h
    simp [rawPcmToAudioBuffer, h]
  · intro h
    simp [rawPcmToAudioBuffer, h]
  · intro h hne
    refine ⟨{ sampleRate := sr,
              channels := [(bytesToInt16s bytes).map (fun (s : ℤ) => (s : ℚ) / 32768)] },
      ?_, rfl, rfl, ?_, ?_⟩
    · unfold rawPcmToAudioBuffer
      rw [if_pos h, if_neg (by omega)]
    · have hl : ((bytesToInt16s bytes).map (fun (s : ℤ) => (s : ℚ) / 32768)).length =
          bytes.length / 2 := by
        rw [List.length_map]; exact bytesToInt16s_length bytes
      exact hl
    · intro i hi
      have hlen : i < (bytesToInt16s bytes).length := by
        rw [bytesToInt16s_length]; exact hi
      have h1 : 2 * i + 1 < bytes.length := by omega
      show ((bytesToInt16s bytes).map (fun (s : ℤ) => (s : ℚ) / 32768)).getD i 0 = _
      rw [List.getD_eq_getElem _ _ (by simpa using hlen), List.getElem_map,
        ← List.getD_eq_getElem _ (0 : ℤ) hlen, bytesToInt16s_getD bytes i h1]

/-- Witness for the amended C5 at the concrete bytes `[0, 128]` (the
little-endian encoding of `-32768`, which decodes to the sample `-1`). -/
theorem rawPcm_decode_spec_witness :
    ∃ b, rawPcmToAudioBuffer [0, 128] 24000 = some b ∧
      b.numberOfChannels = 1 ∧ b.sampleRate = 24000 ∧
      b.frameCount = [0, 128].length / 2 ∧
      ∀ i, i < [0, 128].length / 2 →
        (b.channels.headD []).getD i 0 =
          (int16OfLe ([0, 128].getD (2 * i) 0) ([0, 128].getD (2 * i + 1) 0) : ℚ)
            / 32768 :=
  (rawPcm_decode_spec [0, 128] 24000).2.2 (by decide) (by decide)

/-! ## Helper lemmas about `trimSilence` -/

lemma trimSilence_def (b : AudioBuffer) :
    trimSilence b =
      if scanEnd (b.channels.headD []) silenceThreshold
            (scanStart silenceThreshold (b.channels.headD []))
            (b.channels.headD []).length ≤
          scanStart silenceThreshold (b.channels.headD []) then b
      else
        { sampleRate := b.sampleRate,
          channels := b.channels.map (fun c =>
            (c.drop (scanStart silenceThreshold (b.channels.headD []))).take
              (scanEnd (b.channels.headD []) silenceThreshold
                  (scanStart silenceThreshold (b.channels.headD []))
                  (b.channels.headD []).length -
                scanStart silenceThreshold (b.channels.headD []))) } := rfl

lemma scanStart_lt_of_witness (θ : ℚ) :
    ∀ d : List ℚ, ∀ x ∈ d, ¬ |x| < θ → scanStart θ d < d.length
  | [], x, hx, _ => by simp at hx
  | y :: rest, x, hx, hxb => by
    by_cases hy : |y| < θ
    · have hxr : x ∈ rest := by
        rcases List.mem_cons.mp hx with h | h
        · exact absurd (h ▸ hy) hxb
        · exact h
      simpa [scanStart, hy, Nat.succ_lt_succ_iff] using
        scanStart_lt_of_witness θ rest x hxr hxb
    · simp [scanStart, hy]

lemma scanStart_eq_zero (θ : ℚ) (d : List ℚ) (hd : d ≠ [])
    (h : ¬ |d.getD 0 0| < θ) : scanStart θ d = 0 := by
  cases d with
  | nil => exact absurd rfl hd
  | cons x rest =>
    have hx : ¬ |x| < θ := by simpa using h
    simp [scanStart, hx]

lemma scanEnd_last (d : List ℚ) (θ : ℚ) (s k : ℕ)
    (h : ¬ |d.getD k 0| < θ) : scanEnd d θ s (k + 1) = k + 1 := by
  simp only [scanEnd]
  rw [if_neg]
  rintro ⟨_, hk⟩
  exact h (by simpa using hk)

lemma getD_take_drop (l : List ℚ) (s k i : ℕ) (hik : i < k)
    (hlen : s + i < l.length) :
    ((l.drop s).take k).getD i 0 = l.getD (s + i) 0 := by
  have htk : i < ((l.drop s).take k).length := by simp; omega
  rw [List.getD_eq_getElem _ _ htk, List.getD_eq_getElem _ _ hlen,
    List.getElem_take _, List.getElem_drop _]

lemma trimSilence_cons (sr : ℚ) (c0 : List ℚ) (cs : List (List ℚ)) :
    trimSilence ⟨sr, c0 :: cs⟩ =
      if scanEnd c0 silenceThreshold (scanStart silenceThreshold c0) c0.length ≤
          scanStart silenceThreshold c0 then ⟨sr, c0 :: cs⟩
      else
        ⟨sr, (c0 :: cs).map (fun c =>
          (c.drop (scanStart silenceThreshold c0)).take
            (scanEnd c0 silenceThreshold (scanStart silenceThreshold c0)
                c0.length -
              scanStart silenceThreshold c0))⟩ := rfl

/-- C7: a buffer whose channel-0 samples all lie strictly below the
threshold (including the empty buffer) is returned by `trimSilence`
unchanged, never emptied or inverted; otherwise the result is a new buffer
holding exactly the frames `[start, end)` of every channel — `start` and
`end` being the two scan boundaries, with `start < end` — at the same
sample rate and channel count. -/
theorem trimSilence_silent_unchanged (b : AudioBuffer) :
    ((∀ x ∈ b.channels.headD [], |x| < silenceThreshold) → trimSilence b = b) ∧
    ((∃ x ∈ b.channels.headD [], ¬ |x| < silenceThreshold) →
      scanStart silenceThreshold (b.channels.headD []) <
        scanEnd (b.channels.headD []) silenceThreshold
          (scanStart silenceThreshold (b.channels.headD []))
          (b.channels.headD []).length ∧
      (trimSilence b).sampleRate = b.sampleRate ∧
      (trimSilence b).numberOfChannels = b.numberOfChannels ∧
      (trimSilence b).channels = b.channels.map (fun c =>
        (c.drop (scanStart silenceThreshold (b.channels.headD []))).take
          (scanEnd (b.channels.headD []) silenceThreshold
              (scanStart silenceThreshold (b.channels.headD []))
              (b.channels.headD []).length -
            scanStart silenceThreshold (b.channels.headD [])))) := by
  constructor
  · intro h
    have hs : scanStart silenceThreshold (b.channels.headD []) =
        (b.channels.headD []).length := scanStart_eq_length _ _ h
    have he := scanEnd_le (b.channels.headD []) silenceThreshold
      (scanStart silenceThreshold (b.channels.headD []))
      (b.channels.headD []).length
    rw [trimSilence_def, if_pos (by omega)]
  · rintro ⟨x, hx, hxb⟩
    have hs : scanStart silenceThreshold (b.channels.headD []) <
        (b.channels.headD []).length :=
      scanStart_lt_of_witness _ _ x hx hxb
    have hb : ¬ |(b.channels.headD []).getD
        (scanStart silenceThreshold (b.channels.headD [])) 0| <
          silenceThreshold :=
      scanStart_getD _ _ hs
    have hlt : scanStart silenceThreshold (b.channels.headD []) <
        scanEnd (b.channels.headD []) silenceThreshold
          (scanStart silenceThreshold (b.channels.headD []))
          (b.channels.headD []).length :=
      scanEnd_gt _ _ _ hb _ hs
    refine ⟨hlt, ?_, ?_, ?_⟩
    · rw [trimSilence_def, if_neg (by omega)]
    · rw [trimSilence_def, if_neg (by omega)]
      simp [AudioBuffer.numberOfChannels]
    · rw [trimSilence_def, if_neg (by omega)]

/-- Witness for C7: a fully silent two-sample buffer is returned unchanged. -/
theorem trimSilence_silent_unchanged_witness :
    trimSilence ⟨24000, [[1 / 1000, -1 / 1000]]⟩ =
      ⟨24000, [[1 / 1000, -1 / 1000]]⟩ :=
  (trimSilence_silent_unchanged ⟨24000, [[1 / 1000, -1 / 1000]]⟩).1 (by
    intro x hx
    simp only [List.headD_cons, List.mem_cons, List.not_mem_nil, or_false] at hx
    rcases hx with h | h <;> rw [h] <;> rw [silenceThreshold] <;>
      rw [abs_lt] <;> constructor <;> norm_num)

/-- C6: `trimSilence` is idempotent — re-trimming a trimmed buffer changes
neither the frame count nor any sample value, because after a proper trim
no boundary sample of the result is still strictly under the threshold. -/
theorem trimSilence_idem (b : AudioBuffer) :
    trimSilence (trimSilence b) = trimSilence b := by
  obtain ⟨sr, channels⟩ := b
  cases channels with
  | nil => rfl
  | cons c0 cs =>
    by_cases hse : scanEnd c0 silenceThreshold (scanStart silenceThreshold c0)
        c0.length ≤ scanStart silenceThreshold c0
    · rw [trimSilence_cons, if_pos hse, trimSilence_cons, if_pos hse]
    · push_neg at hse
      have helen : scanEnd c0 silenceThreshold (scanStart silenceThreshold c0)
          c0.length ≤ c0.length := scanEnd_le _ _ _ _
      have hslen : scanStart silenceThreshold c0 < c0.length :=
        lt_of_lt_of_le hse helen
      have hsb : ¬ |c0.getD (scanStart silenceThreshold c0) 0| <
          silenceThreshold := scanStart_getD _ _ hslen
      have heb : ¬ |c0.getD (scanEnd c0 silenceThreshold
          (scanStart silenceThreshold c0) c0.length - 1) 0| <
            silenceThreshold := scanEnd_boundary _ _ _ _ hse
      rw [trimSilence_cons, if_neg (by omega), List.map_cons, trimSilence_cons]
      set s := scanStart silenceThreshold c0 with hs_def
      set e := scanEnd c0 silenceThreshold s c0.length with he_def
      set d' := (c0.drop s).take (e - s) with hddef
      have hdlen : d'.length = e - s := by
        rw [hddef]; simp; omega
      have hdzero : d'.getD 0 0 = c0.getD s 0 := by
        rw [hddef]
        have h0 := getD_take_drop c0 s (e - s) 0 (by omega) (by omega)
        simpa using h0
      have hdlast : d'.getD (e - s - 1) 0 = c0.getD (e - 1) 0 := by
        rw [hddef, getD_take_drop c0 s (e - s) (e - s - 1) (by omega) (by omega)]
        congr 1
        omega
      have hs2 : scanStart silenceThreshold d' = 0 := by
        apply scanStart_eq_zero
        · intro hnil
          rw [hnil] at hdlen
          simp at hdlen
          omega
        · rw [hdzero]; exact hsb
      have he2 : scanEnd d' silenceThreshold 0 d'.length = d'.length := by
        have hrw : d'.length = (e - s - 1) + 1 := by omega
        rw [hrw, scanEnd_last]
        rw [hdlast]
        exact heb
      rw [hs2, he2, if_neg (by omega)]
      simp only [Nat.sub_zero, List.drop_zero, List.map_cons]
      congr 1
      congr 1
      · exact List.take_of_length_le (le_refl _)
      · rw [List.map_map]
        apply List.map_congr_left
        intro c _
        simp only [Function.comp_apply]
        apply List.take_of_length_le
        rw [hdlen]
        simp [List.length_take]

/-! ## Helper lemmas about the per-sample WAV conversion -/

lemma wrap32_eq (t : ℤ) (h1 : -2 ^ 31 ≤ t) (h2 : t < 2 ^ 31) : wrap32 t = t := by
  unfold wrap32
  omega

lemma wavSample_num (q : ℚ) :
    wavSample (.num q) =
      wrap32 (jsTrunc (if 1 / 2 + max (-1) (min 1 q) < 0
        then max (-1) (min 1 q) * 32768
        else max (-1) (min 1 q) * 32767)) := rfl

lemma jsTrunc_range (q : ℚ) (h1 : -32768 ≤ q) (h2 : q ≤ 32767) :
    -32768 ≤ jsTrunc q ∧ jsTrunc q ≤ 32767 := by
  unfold jsTrunc
  split
  · constructor
    · exact Int.le_floor.mpr (by exact_mod_cast h1)
    · have : ⌊q⌋ < 32768 := Int.floor_lt.mpr (by push_cast; linarith)
      omega
  · constructor
    · have : (-32768 : ℚ) ≤ (⌈q⌉ : ℚ) := le_trans h1 (Int.le_ceil q)
      exact_mod_cast this
    · exact Int.ceil_le.mpr (by exact_mod_cast h2)

lemma wavSample_range (x : JSNum) :
    -32768 ≤ wavSample x ∧ wavSample x ≤ 32767 := by
  cases x with
  | nan => simp [wavSample, wavClamp, jsMin, jsMax, wavScale, jsToInt32]
  | posInf =>
    have h : wavSample .posInf = 32767 := by
      show wrap32 (jsTrunc (if 1 / 2 + max (-1 : ℚ) 1 < 0
        then max (-1 : ℚ) 1 * 32768 else max (-1 : ℚ) 1 * 32767)) = 32767
      rw [max_eq_right (by norm_num : (-1 : ℚ) ≤ 1), if_neg (by norm_num)]
      have ht : jsTrunc ((1 : ℚ) * 32767) = 32767 := by
        unfold jsTrunc
        rw [if_pos (by norm_num), Int.floor_eq_iff] <;> norm_num
      rw [ht, wrap32_eq _ (by norm_num) (by norm_num)]
    rw [h]
    exact ⟨by norm_num, le_refl _⟩
  | negInf =>
    have h : wavSample .negInf = -32768 := by
      show wrap32 (jsTrunc (if 1 / 2 + (-1 : ℚ) < 0
        then (-1 : ℚ) * 32768 else (-1 : ℚ) * 32767)) = -32768
      rw [if_pos (by norm_num)]
      have ht : jsTrunc ((-1 : ℚ) * 32768) = -32768 := by
        unfold jsTrunc
        rw [if_neg (by norm_num), Int.ceil_eq_iff] <;> norm_num
      rw [ht, wrap32_eq _ (by norm_num) (by norm_num)]
    rw [h]
    exact ⟨le_refl _, by norm_num⟩
  | num q =>
    rw [wavSample_num]
    set c := max (-1) (min 1 q) with hc
    have hc1 : (-1 : ℚ) ≤ c := le_max_left _ _
    have hc2 : c ≤ 1 := max_le (by norm_num) (min_le_left _ _)
    have hv1 : -32768 ≤ (if 1 / 2 + c < 0 then c * 32768 else c * 32767) := by
      split <;> nlinarith
    have hv2 : (if 1 / 2 + c < 0 then c * 32768 else c * 32767) ≤ 32767 := by
      split <;> nlinarith
    have hr := jsTrunc_range _ hv1 hv2
    rw [wrap32_eq _ (by omega) (by omega)]
    exact hr

/-- C10: for every input the WAV encoder's per-sample conversion can see —
any rational (also far outside `[-1, 1]`), `NaN`, or an infinity — the
resulting integer lies in `[-32768, 32767]`, so the 16-bit write of
`bufferToWave` never wraps or overflows. -/
theorem wavSample_no_overflow (x : JSNum) :
    -32768 ≤ wavSample x ∧ wavSample x ≤ 32767 :=
  wavSample_range x

/-- The per-sample conversion as the specification words it: clamp to
`[-1, 1]`, scale negative values by 32768 and non-negative ones by 32767,
truncate toward zero.  Stated only for comparison with the code's
`wavSample`. -/
def wavSampleClaimed (q : ℚ) : ℤ :=
  let c := max (-1) (min 1 q)
  jsTrunc (if c < 0 then c * 32768 else c * 32767)

/-- C2 counterexample: at the sample value `-0.25` the code multiplies by
32767 (its switch sits at `-0.5`, from `0.5 + sample < 0`), producing
`-8191`, while the claimed negative-means-32768 rule would produce
`-8192`. -/
theorem wavSample_claim_counterexample :
    wavSample (.num (-(1 / 4))) = -8191 ∧ wavSampleClaimed (-(1 / 4)) = -8192 ∧
      wavSample (.num (-(1 / 4))) ≠ wavSampleClaimed (-(1 / 4)) := by
  have h1 : wavSample (.num (-(1 / 4))) = -8191 := by
    rw [wavSample_num]
    have hm : min (1 : ℚ) (-(1 / 4)) = -(1 / 4) := by norm_num
    have hx : max (-1 : ℚ) (-(1 / 4)) = -(1 / 4) := by norm_num
    rw [hm, hx, if_neg (by norm_num)]
    have : jsTrunc (-(1 / 4) * 32767) = -8191 := by
      unfold jsTrunc
      rw [if_neg (by norm_num)]
      rw [Int.ceil_eq_iff] <;> norm_num
    rw [this, wrap32_eq _ (by norm_num) (by norm_num)]
  have h2 : wavSampleClaimed (-(1 / 4)) = -8192 := by
    unfold wavSampleClaimed
    have hm : min (1 : ℚ) (-(1 / 4)) = -(1 / 4) := by norm_num
    have hx : max (-1 : ℚ) (-(1 / 4)) = -(1 / 4) := by norm_num
    simp only [hm, hx]
    rw [if_pos (by norm_num)]
    unfold jsTrunc
    rw [if_neg (by norm_num)]
    rw [Int.ceil_eq_iff] <;> norm_num
  exact ⟨h1, h2, by rw [h1, h2]; decide⟩

/-- C2 amended: the encoded integer is obtained by clamping the sample to
`[-1, 1]`, multiplying by 32768 only when the clamped value is below
`-0.5` (the code's switch `0.5 + sample < 0`, not "negative") and by
32767 otherwise, then truncating toward zero; the endpoint facts of the
claim do hold: `1.4` encodes to `32767` and `-1.4` to `-32768`. -/
theorem wavSample_formula (q : ℚ) :
    wavSample (.num q) =
      jsTrunc (if max (-1) (min 1 q) < -(1 / 2)
        then max (-1) (min 1 q) * 32768
        else max (-1) (min 1 q) * 32767) ∧
    wavSample (.num (7 / 5)) = 32767 ∧
    wavSample (.num (-(7 / 5))) = -32768 := by
  refine ⟨?_, ?_, ?_⟩
  · have hc1 : (-1 : ℚ) ≤ max (-1) (min 1 q) := le_max_left _ _
    have hc2 : max (-1) (min 1 q) ≤ 1 := max_le (by norm_num) (min_le_left _ _)
    rw [wavSample_num]
    by_cases h : max (-1) (min 1 q) < -(1 / 2)
    · rw [if_pos h, if_pos (by linarith : 1 / 2 + max (-1) (min 1 q) < 0)]
      have hr := jsTrunc_range (max (-1) (min 1 q) * 32768)
        (by nlinarith) (by nlinarith)
      exact wrap32_eq _ (by omega) (by omega)
    · rw [if_neg h, if_neg (fun hh => h (by linarith))]
      have hr := jsTrunc_range (max (-1) (min 1 q) * 32767)
        (by nlinarith) (by nlinarith)
      exact wrap32_eq _ (by omega) (by omega)
  · rw [wavSample_num]
    have hm : min (1 : ℚ) (7 / 5) = 1 := by norm_num
    have hx : max (-1 : ℚ) 1 = 1 := by norm_num
    rw [hm, hx, if_neg (by norm_num)]
    have ht : jsTrunc ((1 : ℚ) * 32767) = 32767 := by
      unfold jsTrunc
      rw [if_pos (by norm_num), Int.floor_eq_iff] <;> norm_num
    rw [ht, wrap32_eq _ (by norm_num) (by norm_num)]
  · rw [wavSample_num]
    have hm : min (1 : ℚ) (-(7 / 5)) = -(7 / 5) := by norm_num
    have hx : max (-1 : ℚ) (-(7 / 5)) = -1 := by norm_num
    rw [hm, hx, if_pos (by norm_num)]
    have ht : jsTrunc ((-1 : ℚ) * 32768) = -32768 := by
      unfold jsTrunc
      rw [if_neg (by norm_num), Int.ceil_eq_iff] <;> norm_num
    rw [ht, wrap32_eq _ (by norm_num) (by norm_num)]

/-! ## Helper lemmas for the WAV round trip -/

lemma bytesToInt16s_i16le (v : ℤ) (rest : List ℕ)
    (h1 : -32768 ≤ v) (h2 : v ≤ 32767) :
    bytesToInt16s (i16le v ++ rest) = v :: bytesToInt16s rest := by
  show int16OfLe ((v % 65536).toNat % 256) ((v % 65536).toNat / 256 % 256) ::
    bytesToInt16s rest = v :: bytesToInt16s rest
  congr 1
  simp only [int16OfLe]
  split <;> omega

lemma flatMap_i16le_length (vs : List ℤ) :
    (vs.flatMap (fun v => i16le v)).length = 2 * vs.length := by
  induction vs with
  | nil => rfl
  | cons v vs ih =>
    rw [List.flatMap_cons, List.length_append, ih]
    show (2 : ℕ) + 2 * vs.length = 2 * (vs.length + 1)
    omega

lemma bytesToInt16s_flatMap_append (vs : List ℤ) (rest : List ℕ)
    (h : ∀ v ∈ vs, -32768 ≤ v ∧ v ≤ 32767) :
    bytesToInt16s (vs.flatMap (fun v => i16le v) ++ rest) =
      vs ++ bytesToInt16s rest := by
  induction vs with
  | nil => rfl
  | cons v vs ih =>
    rw [List.flatMap_cons, List.append_assoc,
      bytesToInt16s_i16le v _ (h v (by simp)).1 (h v (by simp)).2,
      ih (fun w hw => h w (by simp [hw]))]
    rfl

lemma bytesToInt16s_replicate_zero : ∀ m : ℕ,
    bytesToInt16s (List.replicate (2 * m) 0) = List.replicate m 0
  | 0 => rfl
  | m + 1 => by
    rw [show 2 * (m + 1) = (2 * m) + 2 from by omega]
    show int16OfLe 0 0 :: bytesToInt16s (List.replicate (2 * m) 0) =
      List.replicate (m + 1) 0
    rw [bytesToInt16s_replicate_zero m]
    rfl

lemma getD_replicate_zero (n m : ℕ) :
    (List.replicate n (0 : ℚ)).getD m 0 = 0 := by
  rcases Nat.lt_or_ge m n with h | h
  · rw [List.getD_eq_getElem _ _ (by simpa using h), List.getElem_replicate]
  · rw [List.getD_eq_default _ _ (by simpa using h)]

lemma drop_length_append (l1 l2 : List ℕ) (n : ℕ) (h : l1.length = n) :
    (l1 ++ l2).drop n = l2 := by
  subst h
  exact List.drop_left l1 l2

lemma bufferToWave_drop_header (b : AudioBuffer) (len : ℕ) :
    (bufferToWave b len).drop 44 =
      (List.range (len - 44)).flatMap (fun k =>
        (List.range b.numberOfChannels).flatMap (fun i =>
          i16le (wavSample (channelSampleJS (b.channels.getD i []) (44 + k))))) ++
        List.replicate (len * b.numberOfChannels * 2 -
          (len - 44) * b.numberOfChannels * 2) 0 := by
  simp only [bufferToWave]
  apply drop_length_append
  simp [u32le, u16le]

lemma wav_decode_mono (sr : ℚ) (d : List ℚ) (hne : d ≠ []) :
    rawPcmToAudioBuffer ((bufferToWave ⟨sr, [d]⟩ d.length).drop 44) sr =
      some ⟨sr, [((List.range (d.length - 44)).map
          (fun k => ((wavSample (channelSampleJS d (44 + k)) : ℤ) : ℚ) / 32768)) ++
        List.replicate (d.length - (d.length - 44)) 0]⟩ := by
  rw [bufferToWave_drop_header]
  have hch : (⟨sr, [d]⟩ : AudioBuffer).numberOfChannels = 1 := rfl
  rw [hch]
  have hinner : ∀ k, (List.range 1).flatMap (fun i =>
      i16le (wavSample (channelSampleJS
        ((⟨sr, [d]⟩ : AudioBuffer).channels.getD i []) (44 + k)))) =
      i16le (wavSample (channelSampleJS d (44 + k))) := by
    intro k
    rw [show List.range 1 = [0] from rfl, List.flatMap_cons, List.flatMap_nil,
      List.append_nil]
    rfl
  simp only [hinner]
  rw [show ((List.range (d.length - 44)).flatMap fun k =>
      i16le (wavSample (channelSampleJS d (44 + k)))) =
      (((List.range (d.length - 44)).map
        (fun k => wavSample (channelSampleJS d (44 + k)))).flatMap
          (fun v => i16le v)) from by rw [List.flatMap_map]]
  have hbounds : ∀ v ∈ (List.range (d.length - 44)).map
      (fun k => wavSample (channelSampleJS d (44 + k))),
      -32768 ≤ v ∧ v ≤ 32767 := by
    intro v hv
    rcases List.mem_map.mp hv with ⟨k, _, rfl⟩
    exact wavSample_range _
  rw [show d.length * 1 * 2 - (d.length - 44) * 1 * 2 =
      2 * (d.length - (d.length - 44)) from by omega]
  have hlen0 : 0 < d.length := List.length_pos.mpr hne
  have hlentot : ((((List.range (d.length - 44)).map
      (fun k => wavSample (channelSampleJS d (44 + k)))).flatMap
        (fun v => i16le v)) ++
      List.replicate (2 * (d.length - (d.length - 44))) 0).length =
      2 * d.length := by
    rw [List.length_append, flatMap_i16le_length, List.length_map,
      List.length_range, List.length_replicate]
    omega
  unfold rawPcmToAudioBuffer
  rw [if_pos (by rw [hlentot]; omega), if_neg (by rw [hlentot]; omega),
    bytesToInt16s_flatMap_append _ _ hbounds, bytesToInt16s_replicate_zero,
    List.map_append, List.map_map, List.map_replicate,
    show ((0 : ℤ) : ℚ) / 32768 = (0 : ℚ) from by norm_num]
  rfl

lemma wavSample_quantization (x : ℚ) (h1 : -1 ≤ x) (h2 : x ≤ 1) :
    |x - (wavSample (.num x) : ℚ) / 32768| < 2 / 32768 := by
  rw [wavSample_num, min_eq_right h2, max_eq_right h1]
  by_cases hc : 1 / 2 + x < 0
  · rw [if_pos hc]
    have hneg : ¬ (0 ≤ x * 32768) := by nlinarith
    unfold jsTrunc
    rw [if_neg hneg]
    have hcl := Int.le_ceil (x * 32768)
    have hcu := Int.ceil_lt_add_one (x * 32768)
    have hl : (-32768 : ℤ) ≤ ⌈x * 32768⌉ := by
      have hq : (-32768 : ℚ) ≤ (⌈x * 32768⌉ : ℚ) := le_trans (by nlinarith) hcl
      exact_mod_cast hq
    have hu : ⌈x * 32768⌉ ≤ 0 := Int.ceil_le.mpr (by push_cast; nlinarith)
    rw [wrap32_eq _ (by omega) (by omega), abs_lt]
    constructor <;> linarith
  · rw [if_neg hc]
    unfold jsTrunc
    by_cases hp : 0 ≤ x * 32767
    · rw [if_pos hp]
      have hx0 : 0 ≤ x := by nlinarith
      have hfl := Int.floor_le (x * 32767)
      have hfu := Int.sub_one_lt_floor (x * 32767)
      have hl : (0 : ℤ) ≤ ⌊x * 32767⌋ := Int.le_floor.mpr (by push_cast; linarith)
      have hu : ⌊x * 32767⌋ < 32768 := Int.floor_lt.mpr (by push_cast; nlinarith)
      rw [wrap32_eq _ (by omega) (by omega), abs_lt]
      constructor <;> linarith
    · rw [if_neg hp]
      have hx0 : x < 0 := by nlinarith
      have hxh : -(1 / 2) ≤ x := by linarith
      have hcl := Int.le_ceil (x * 32767)
      have hcu := Int.ceil_lt_add_one (x * 32767)
      have hl : (-16384 : ℤ) ≤ ⌈x * 32767⌉ := by
        have hq : (-16384 : ℚ) ≤ (⌈x * 32767⌉ : ℚ) := le_trans (by nlinarith) hcl
        exact_mod_cast hq
      have hu : ⌈x * 32767⌉ ≤ 0 := Int.ceil_le.mpr (by push_cast; nlinarith)
      rw [wrap32_eq _ (by omega) (by omega), abs_lt]
      constructor <;> linarith

/-- C3 amended: for every nonempty mono buffer with samples in `[-1, 1]`,
decoding the data chunk (bytes from offset 44 on) of the WAV encoding at
the buffer's sample rate reconstructs the same frame count, but the
content is shifted: the source's sample loop reuses the header cursor
`pos = 44` as its first frame index, so decoded sample `i` corresponds to
the original's sample `44 + i` — within strictly less than two 16-bit
quantization steps (`< 2/32768`; one step is not enough, the encoder
scales non-negative samples by 32767 while the decoder divides by 32768)
— and the final `min(44, frameCount)` decoded samples are zero. -/
theorem wav_roundtrip_quantization (b : AudioBuffer) (d : List ℚ)
    (hch : b.channels = [d]) (hne : d ≠ [])
    (hr : ∀ x ∈ d, -1 ≤ x ∧ x ≤ 1) :
    ∃ b', rawPcmToAudioBuffer ((bufferToWave b b.frameCount).drop 44)
        b.sampleRate = some b' ∧
      b'.frameCount = b.frameCount ∧
      (∀ i, i < b.frameCount - 44 →
        |d.getD (44 + i) 0 - (b'.channels.headD []).getD i 0| < 2 / 32768) ∧
      (∀ i, b.frameCount - 44 ≤ i → i < b.frameCount →
        (b'.channels.headD []).getD i 0 = 0) := by
  obtain ⟨sr, ch⟩ := b
  have hch' : ch = [d] := hch
  subst hch'
  have hfc : (⟨sr, [d]⟩ : AudioBuffer).frameCount = d.length := rfl
  rw [hfc]
  have hAl : ((List.range (d.length - 44)).map
      (fun k => ((wavSample (channelSampleJS d (44 + k)) : ℤ) : ℚ)
        / 32768)).length = d.length - 44 := by
    rw [List.length_map, List.length_range]
  have hcq : ((⟨sr, [((List.range (d.length - 44)).map
      (fun k => ((wavSample (channelSampleJS d (44 + k)) : ℤ) : ℚ) / 32768)) ++
      List.replicate (d.length - (d.length - 44)) 0]⟩ :
        AudioBuffer).channels.headD []) =
      ((List.range (d.length - 44)).map
        (fun k => ((wavSample (channelSampleJS d (44 + k)) : ℤ) : ℚ) / 32768)) ++
      List.replicate (d.length - (d.length - 44)) 0 := rfl
  refine ⟨_, wav_decode_mono sr d hne, ?_, ?_, ?_⟩
  · show (((List.range (d.length - 44)).map
        (fun k => ((wavSample (channelSampleJS d (44 + k)) : ℤ) : ℚ) / 32768)) ++
      List.replicate (d.length - (d.length - 44)) 0).length = d.length
    rw [List.length_append, List.length_map, List.length_range,
      List.length_replicate]
    omega
  · intro i hi
    rw [hcq]
    have hiA : i < ((List.range (d.length - 44)).map
        (fun k => ((wavSample (channelSampleJS d (44 + k)) : ℤ) : ℚ)
          / 32768)).length := by
      rw [hAl]
      exact hi
    rw [List.getD_append _ _ _ _ hiA,
      List.getD_eq_getElem _ _ hiA, List.getElem_map, List.getElem_range]
    have hidx : 44 + i < d.length := by omega
    have hcs : channelSampleJS d (44 + i) = .num (d.getD (44 + i) 0) := by
      unfold channelSampleJS
      rw [if_pos hidx]
    rw [hcs]
    have hmem : d.getD (44 + i) 0 ∈ d := by
      rw [List.getD_eq_getElem d 0 hidx]
      exact List.getElem_mem hidx
    exact wavSample_quantization _ (hr _ hmem).1 (hr _ hmem).2
  · intro i hge hlt
    rw [hcq]
    rw [List.getD_append_right _ _ _ _ (by rw [hAl]; exact hge), hAl,
      getD_replicate_zero]

/-- Witness for the amended C3 at the one-frame zero buffer: one frame is
below the 44-frame offset, so the whole (one-sample) data chunk decodes
to zero. -/
theorem wav_roundtrip_quantization_witness :
    ∃ b', rawPcmToAudioBuffer
        ((bufferToWave ⟨8000, [[0]]⟩
          (AudioBuffer.frameCount ⟨8000, [[0]]⟩)).drop 44)
        (AudioBuffer.sampleRate ⟨8000, [[0]]⟩) = some b' ∧
      b'.frameCount = AudioBuffer.frameCount ⟨8000, [[0]]⟩ ∧
      (∀ i, i < AudioBuffer.frameCount ⟨8000, [[0]]⟩ - 44 →
        |[(0 : ℚ)].getD (44 + i) 0 - (b'.channels.headD []).getD i 0| <
          2 / 32768) ∧
      (∀ i, AudioBuffer.frameCount ⟨8000, [[0]]⟩ - 44 ≤ i →
        i < AudioBuffer.frameCount ⟨8000, [[0]]⟩ →
        (b'.channels.headD []).getD i 0 = 0) :=
  wav_roundtrip_quantization ⟨8000, [[0]]⟩ [0] rfl (by simp) (by
    intro x hx
    simp only [List.mem_singleton] at hx
    rw [hx]
    norm_num)

/-- C3 counterexample.  Part one: the one-frame mono buffer holding `1`
encodes a data chunk of two zero bytes — the sample loop
`while (pos < len)` starts with `pos = 44`, so for `len ≤ 44` no frame is
ever written — and the round trip returns `0`, an error of `1`.  Part
two: even a frame the loop does copy (frame 44 of a 45-frame buffer,
value `65535/65536`) comes back as `16383/16384`, an error of `3/65536`,
which already exceeds the claimed single quantization step
`1/32768 = 2/65536`. -/
theorem wav_roundtrip_counterexample :
    (rawPcmToAudioBuffer ((bufferToWave ⟨8000, [[1]]⟩ 1).drop 44) 8000 =
        some ⟨8000, [[0]]⟩ ∧
      ¬ |(1 : ℚ) - 0| ≤ 1 / 32768) ∧
    (rawPcmToAudioBuffer ((bufferToWave
        ⟨8000, [List.replicate 44 0 ++ [65535 / 65536]]⟩ 45).drop 44) 8000 =
        some ⟨8000, [(16383 / 16384 : ℚ) :: List.replicate 44 0]⟩ ∧
      ¬ |(65535 / 65536 : ℚ) - 16383 / 16384| ≤ 1 / 32768) := by
  have hs : wavSample (.num (65535 / 65536 : ℚ)) = 32766 := by
    rw [wavSample_num]
    have hm : min (1 : ℚ) (65535 / 65536) = 65535 / 65536 := by norm_num
    have hx : max (-1 : ℚ) (65535 / 65536) = 65535 / 65536 := by norm_num
    rw [hm, hx, if_neg (by norm_num)]
    have ht : jsTrunc ((65535 / 65536 : ℚ) * 32767) = 32766 := by
      unfold jsTrunc
      rw [if_pos (by norm_num), Int.floor_eq_iff] <;> norm_num
    rw [ht, wrap32_eq _ (by norm_num) (by norm_num)]
  refine ⟨⟨?_, ?_⟩, ?_, ?_⟩
  · exact wav_decode_mono 8000 [1] (by simp)
  · rw [sub_zero, abs_one]
    norm_num
  · have h := wav_decode_mono 8000
      (List.replicate 44 (0 : ℚ) ++ [65535 / 65536]) (by simp)
    have hclen : (List.replicate 44 (0 : ℚ) ++ [65535 / 65536]).length = 45 := by
      rw [List.length_append, List.length_replicate]
      rfl
    rw [hclen] at h
    rw [show (45 - 44 : ℕ) = 1 from rfl, show (45 - 1 : ℕ) = 44 from rfl,
      show List.range 1 = [0] from rfl] at h
    simp only [List.map_cons, List.map_nil] at h
    have hcs : channelSampleJS
        (List.replicate 44 (0 : ℚ) ++ [65535 / 65536]) (44 + 0) =
        .num (65535 / 65536) := by
      unfold channelSampleJS
      rw [if_pos (by rw [hclen]; omega),
        List.getD_append_right _ _ _ _ (by simp), List.length_replicate]
      rfl
    rw [hcs, hs, show ((32766 : ℤ) : ℚ) / 32768 = 16383 / 16384 from by
      norm_num, List.singleton_append] at h
    exact h
  · rw [abs_of_pos (by norm_num)]
    norm_num

/-! ## Helper lemmas about the compositor -/

lemma segmentRate_some (seg : Segment) (a : AudioBuffer)
    (ha : seg.audioBuffer = some a) :
    segmentRate seg = if a.duration > seg.endTime - seg.startTime
      then a.duration / (seg.endTime - seg.startTime) else 1 := by
  unfold segmentRate
  rw [ha]

lemma renderedDuration_some (seg : Segment) (a : AudioBuffer)
    (ha : seg.audioBuffer = some a) :
    renderedDuration seg = a.duration / segmentRate seg := by
  unfold renderedDuration
  rw [ha]

lemma segmentContribution_none (sr : ℚ) (ch : ℕ) (seg : Segment) (i : ℕ)
    (ha : seg.audioBuffer = none) : segmentContribution sr ch seg i = 0 := by
  unfold segmentContribution
  rw [ha]

lemma foldl_step_le (step : ℚ → Segment → ℚ)
    (hstep : ∀ a s, a ≤ step a s) :
    ∀ (segs : List Segment) (a : ℚ), a ≤ segs.foldl step a
  | [], a => le_refl a
  | s :: rest, a =>
    le_trans (hstep a s) (foldl_step_le step hstep rest (step a s))

lemma le_totalDuration_init :
    ∀ (segs : List Segment) (a : ℚ),
      a ≤ segs.foldl (fun acc seg => if seg.endTime > acc then seg.endTime
        else acc) a :=
  fun segs a => foldl_step_le _ (fun b s => by
    show b ≤ if s.endTime > b then s.endTime else b
    by_cases h : s.endTime > b
    · rw [if_pos h]
      exact le_of_lt h
    · rw [if_neg h]) segs a

lemma duration_le_totalDuration (o : AudioBuffer) (segs : List Segment) :
    o.duration ≤ totalDuration o segs :=
  le_totalDuration_init segs o.duration

lemma endTime_le_totalDuration (o : AudioBuffer) :
    ∀ (segs : List Segment) (a : ℚ), ∀ s ∈ segs,
      s.endTime ≤ segs.foldl (fun acc seg => if seg.endTime > acc
        then seg.endTime else acc) a
  | [], _, s, hs => by simp at hs
  | t :: rest, a, s, hs => by
    rcases List.mem_cons.mp hs with h | h
    · subst h
      apply le_trans _ (le_totalDuration_init rest _)
      show s.endTime ≤ if s.endTime > a then s.endTime else a
      by_cases hsa : s.endTime > a
      · rw [if_pos hsa]
      · rw [if_neg hsa]
        exact le_of_not_lt hsa
    · exact endTime_le_totalDuration o rest _ s h

lemma totalDuration_attained (o : AudioBuffer) :
    ∀ (segs : List Segment) (a : ℚ),
      segs.foldl (fun acc seg => if seg.endTime > acc then seg.endTime
        else acc) a = a ∨
      ∃ s ∈ segs, segs.foldl (fun acc seg => if seg.endTime > acc
        then seg.endTime else acc) a = s.endTime
  | [], a => Or.inl rfl
  | t :: rest, a => by
    rw [List.foldl_cons]
    show (rest.foldl _ (if t.endTime > a then t.endTime else a) = a) ∨ _
    by_cases ht : t.endTime > a
    · rw [if_pos ht]
      rcases totalDuration_attained o rest t.endTime with h | ⟨s, hs, h⟩
      · exact Or.inr ⟨t, by simp, h⟩
      · exact Or.inr ⟨s, by simp [hs], h⟩
    · rw [if_neg ht]
      rcases totalDuration_attained o rest a with h | ⟨s, hs, h⟩
      · exact Or.inl h
      · exact Or.inr ⟨s, by simp [hs], h⟩

lemma foldl_add_contrib_zero :
    ∀ (segs : List Segment) (f : Segment → ℚ) (a : ℚ),
      (∀ s ∈ segs, f s = 0) →
      segs.foldl (fun acc s => acc + f s) a = a
  | [], _, _, _ => rfl
  | s :: rest, f, a, h => by
    rw [List.foldl_cons, h s (by simp), add_zero]
    exact foldl_add_contrib_zero rest f a (fun t ht => h t (by simp [ht]))

lemma exportMixRendered_numberOfChannels (o : AudioBuffer)
    (segs : List Segment) (v : ℚ) :
    (exportMixRendered o segs v).numberOfChannels = 2 := by
  show ((List.range 2).map _).length = 2
  rw [List.length_map, List.length_range]

lemma exportMixRendered_frameCount (o : AudioBuffer) (segs : List Segment)
    (v : ℚ) :
    (exportMixRendered o segs v).frameCount = masterLen o segs := by
  show (((((List.range 2).map (fun ch => (List.range (masterLen o segs)).map (mixSample o segs v ch)))).headD []).length) = masterLen o segs
  rw [show List.range 2 = [0, 1] from rfl, List.map_cons, List.headD_cons,
    List.length_map, List.length_range]

lemma exportMixRendered_getD (o : AudioBuffer) (segs : List Segment) (v : ℚ)
    (ch i : ℕ) (hch : ch < 2) (hi : i < masterLen o segs) :
    ((exportMixRendered o segs v).channels.getD ch []).getD i 0 =
      mixSample o segs v ch i := by
  have hch' : ch < (List.range 2).length := by
    rw [List.length_range]; exact hch
  have hchm : ch < ((List.range 2).map (fun ch =>
      (List.range (masterLen o segs)).map
        (mixSample o segs v ch))).length := by
    rw [List.length_map]; exact hch'
  show (((List.range 2).map (fun ch =>
    (List.range (masterLen o segs)).map
      (mixSample o segs v ch))).getD ch []).getD i 0 = _
  rw [List.getD_eq_getElem _ _ hchm, List.getElem_map, List.getElem_range]
  have him : i < ((List.range (masterLen o segs)).map
      (mixSample o segs v ch)).length := by
    rw [List.length_map, List.length_range]; exact hi
  rw [List.getD_eq_getElem _ _ him, List.getElem_map, List.getElem_range]

lemma exportMixRendered_getD_of_ge (o : AudioBuffer) (segs : List Segment)
    (v : ℚ) (ch i : ℕ) (hi : masterLen o segs ≤ i) :
    ((exportMixRendered o segs v).channels.getD ch []).getD i 0 = 0 := by
  apply List.getD_eq_default
  rcases Nat.lt_or_ge ch 2 with hch | hch
  · have hchm : ch < ((List.range 2).map (fun ch =>
        (List.range (masterLen o segs)).map
          (mixSample o segs v ch))).length := by
      rw [List.length_map, List.length_range]; exact hch
    show (((((List.range 2).map (fun ch => (List.range (masterLen o segs)).map (mixSample o segs v ch)))).getD ch []).length) ≤ i
    rw [List.getD_eq_getElem _ _ hchm, List.getElem_map, List.getElem_range,
      List.length_map, List.length_range]
    exact hi
  · show (((((List.range 2).map (fun ch => (List.range (masterLen o segs)).map (mixSample o segs v ch)))).getD ch []).length) ≤ i
    rw [List.getD_eq_default]
    · simp
    · rw [List.length_map, List.length_range]
      exact hch

/-- C1 amended: `exportMix` applies no tolerance band and never slows a
segment down.  For a segment with audio: when the audio fits its slot
(`audioDuration ≤ slotDuration`, which covers the whole too-short
direction) the audio plays unchanged at rate 1 and its rendered duration
is the audio's own duration; only when `audioDuration > slotDuration`
(even within 0.05 s) is the playback rate set to
`audioDuration / slotDuration`, making the rendered duration exactly
`slotDuration`. -/
theorem exportMix_rate_spec (seg : Segment) (a : AudioBuffer)
    (ha : seg.audioBuffer = some a)
    (hsd : 0 < seg.endTime - seg.startTime) (had : 0 < a.duration) :
    (a.duration ≤ seg.endTime - seg.startTime →
      segmentRate seg = 1 ∧ renderedDuration seg = a.duration) ∧
    (seg.endTime - seg.startTime < a.duration →
      segmentRate seg = a.duration / (seg.endTime - seg.startTime) ∧
      renderedDuration seg = seg.endTime - seg.startTime) := by
  constructor
  · intro h
    have hrate : segmentRate seg = 1 := by
      rw [segmentRate_some seg a ha, if_neg (not_lt.mpr h)]
    refine ⟨hrate, ?_⟩
    rw [renderedDuration_some seg a ha, hrate, div_one]
  · intro h
    have hrate : segmentRate seg = a.duration / (seg.endTime - seg.startTime) := by
      rw [segmentRate_some seg a ha, if_pos h]
    refine ⟨hrate, ?_⟩
    rw [renderedDuration_some seg a ha, hrate]
    have h1 : a.duration ≠ 0 := ne_of_gt had
    have h2 : seg.endTime - seg.startTime ≠ 0 := ne_of_gt hsd
    field_simp

/-- Witness for the amended C1: a 3 s audio in a 2 s slot is sped up by
rate 3/2 and renders exactly 2 s; the slot `[0, 2)` with a 3-frame audio
at 1.5 Hz gives duration 2 exactly. -/
theorem exportMix_rate_spec_witness :
    AudioBuffer.duration ⟨3 / 2, [[1, 1, 1]]⟩ ≤ (2 : ℚ) - 0 ∧
    segmentRate ⟨0, 2, some ⟨3 / 2, [[1, 1, 1]]⟩⟩ = 1 ∧
    renderedDuration ⟨0, 2, some ⟨3 / 2, [[1, 1, 1]]⟩⟩ =
      AudioBuffer.duration ⟨3 / 2, [[1, 1, 1]]⟩ := by
  have hd : AudioBuffer.duration ⟨3 / 2, [[1, 1, 1]]⟩ = 2 := by
    show ((3 : ℚ)) / (3 / 2) = 2
    norm_num
  have h := (exportMix_rate_spec ⟨0, 2, some ⟨3 / 2, [[1, 1, 1]]⟩⟩
    ⟨3 / 2, [[1, 1, 1]]⟩ rfl (by norm_num) (by rw [hd]; norm_num)).1
    (by rw [hd]; norm_num)
  exact ⟨by rw [hd]; norm_num, h.1, h.2⟩

/-- C1 counterexample: a segment whose audio (1 s) is a full second
shorter than its slot (2 s) — far outside any 0.05 s tolerance — is
played unchanged at rate 1 by `exportMix`, so its rendered duration stays
1 s instead of coming within one frame (0.1 s here) of the 2 s slot as
the claim requires. -/
theorem exportMix_rate_counterexample :
    segmentRate ⟨0, 2, some ⟨10, [List.replicate 10 1]⟩⟩ = 1 ∧
    renderedDuration ⟨0, 2, some ⟨10, [List.replicate 10 1]⟩⟩ = 1 ∧
    ¬ |renderedDuration ⟨0, 2, some ⟨10, [List.replicate 10 1]⟩⟩ -
        ((2 : ℚ) - 0)| ≤ 1 / 10 := by
  have hd : AudioBuffer.duration ⟨10, [List.replicate 10 1]⟩ = 1 := by
    show ((List.replicate 10 (1 : ℚ)).length : ℚ) / 10 = 1
    rw [List.length_replicate]
    norm_num
  have hrate : segmentRate ⟨0, 2, some ⟨10, [List.replicate 10 1]⟩⟩ = 1 := by
    rw [segmentRate_some _ _ rfl, hd, if_neg (by norm_num)]
  have hrd : renderedDuration ⟨0, 2, some ⟨10, [List.replicate 10 1]⟩⟩ = 1 := by
    rw [renderedDuration_some _ _ rfl, hd, hrate, div_one]
  refine ⟨hrate, hrd, ?_⟩
  rw [hrd, show |(1 : ℚ) - (2 - 0)| = 1 from by
    rw [show (1 : ℚ) - (2 - 0) = -1 from by norm_num, abs_neg, abs_one]]
  norm_num

/-- C4 amended: the master buffer `exportMix` renders has TWO channels
(the hard-coded stereo argument of the offline context, regardless of the
original's channel count), `⌊totalDuration * sampleRate⌋` frames (the
WebIDL unsigned-long conversion truncates, it does not take the ceiling),
`totalDuration = max(original.duration, max segment endTime)`, and is
zero-filled: a frame receiving neither background nor any segment
contribution holds `0`. -/
theorem exportMix_master_spec (o : AudioBuffer) (segs : List Segment)
    (v : ℚ) :
    (exportMixRendered o segs v).numberOfChannels = 2 ∧
    (exportMixRendered o segs v).frameCount = masterLen o segs ∧
    o.duration ≤ totalDuration o segs ∧
    (∀ s ∈ segs, s.endTime ≤ totalDuration o segs) ∧
    (totalDuration o segs = o.duration ∨
      ∃ s ∈ segs, totalDuration o segs = s.endTime) ∧
    (∀ ch, ch < 2 → ∀ i, i < masterLen o segs → ¬ v > 0 →
      (∀ s ∈ segs, segmentContribution o.sampleRate ch s i = 0) →
      ((exportMixRendered o segs v).channels.getD ch []).getD i 0 = 0) := by
  refine ⟨exportMixRendered_numberOfChannels o segs v,
    exportMixRendered_frameCount o segs v,
    duration_le_totalDuration o segs,
    fun s hs => endTime_le_totalDuration o segs o.duration s hs,
    totalDuration_attained o segs o.duration,
    ?_⟩
  intro ch hch i hi hv hc
  rw [exportMixRendered_getD o segs v ch i hch hi]
  unfold mixSample
  rw [if_neg hv, foldl_add_contrib_zero segs _ 0 hc, add_zero]

lemma masterLen_counterexample_eval :
    totalDuration ⟨2, [[0, 0, 0]]⟩ [⟨0, 7 / 4, none⟩] = 7 / 4 ∧
    masterLen ⟨2, [[0, 0, 0]]⟩ [⟨0, 7 / 4, none⟩] = 3 := by
  have htd : totalDuration ⟨2, [[0, 0, 0]]⟩ [⟨0, 7 / 4, none⟩] = 7 / 4 := by
    unfold totalDuration
    rw [List.foldl_cons, List.foldl_nil]
    have hdur : AudioBuffer.duration ⟨2, [[0, 0, 0]]⟩ = 3 / 2 := by
      show ((3 : ℕ) : ℚ) / 2 = 3 / 2
      norm_num
    show (if (7 / 4 : ℚ) > AudioBuffer.duration ⟨2, [[0, 0, 0]]⟩
      then (7 / 4 : ℚ) else AudioBuffer.duration ⟨2, [[0, 0, 0]]⟩) = 7 / 4
    rw [hdur, if_pos (by norm_num)]
  refine ⟨htd, ?_⟩
  unfold masterLen
  rw [htd]
  show (⌊(7 / 4 : ℚ) * 2⌋).toNat = 3
  rw [show (7 / 4 : ℚ) * 2 = 7 / 2 from by norm_num,
    show ⌊(7 / 2 : ℚ)⌋ = 3 from by rw [Int.floor_eq_iff] <;> norm_num]
  rfl

/-- Witness for the amended C4 at a mono original (3 frames at 2 Hz) and
one null segment reaching 1.75 s: two output channels, and frame 0 of
channel 0 is zero. -/
theorem exportMix_master_spec_witness :
    (exportMixRendered ⟨2, [[0, 0, 0]]⟩ [⟨0, 7 / 4, none⟩]
      0).numberOfChannels = 2 ∧
    ((exportMixRendered ⟨2, [[0, 0, 0]]⟩ [⟨0, 7 / 4, none⟩]
      0).channels.getD 0 []).getD 0 0 = 0 := by
  have h := exportMix_master_spec ⟨2, [[0, 0, 0]]⟩ [⟨0, 7 / 4, none⟩] 0
  refine ⟨h.1, ?_⟩
  apply h.2.2.2.2.2 0 (by norm_num) 0 ?_ (by norm_num) ?_
  · rw [masterLen_counterexample_eval.2]
    norm_num
  · intro s hs
    rw [List.mem_singleton] at hs
    subst hs
    exact segmentContribution_none _ _ _ _ rfl

/-- C4 counterexample: with a mono original of 3 frames at 2 Hz (duration
1.5 s) and one segment ending at 1.75 s, the rendered master has 2
channels — not the original's 1 — and 3 frames (truncation of 3.5), not
`ceil(totalDuration * sampleRate) = 4` as claimed. -/
theorem exportMix_master_counterexample :
    (exportMixRendered ⟨2, [[0, 0, 0]]⟩ [⟨0, 7 / 4, none⟩]
        0).numberOfChannels ≠
      (⟨2, [[0, 0, 0]]⟩ : AudioBuffer).numberOfChannels ∧
    (exportMixRendered ⟨2, [[0, 0, 0]]⟩ [⟨0, 7 / 4, none⟩] 0).frameCount ≠
      (⌈totalDuration ⟨2, [[0, 0, 0]]⟩ [⟨0, 7 / 4, none⟩] * (2 : ℚ)⌉).toNat := by
  constructor
  · rw [exportMixRendered_numberOfChannels]
    decide
  · rw [exportMixRendered_frameCount, masterLen_counterexample_eval.2,
      masterLen_counterexample_eval.1,
      show (7 / 4 : ℚ) * 2 = 7 / 2 from by norm_num,
      show ⌈(7 / 2 : ℚ)⌉ = 4 from by rw [Int.ceil_eq_iff] <;> norm_num]
    decide

lemma frameCount_le_masterLen (o : AudioBuffer) (segs : List Segment)
    (hsr : 0 < o.sampleRate) : o.frameCount ≤ masterLen o segs := by
  have h2 : (o.frameCount : ℚ) = o.duration * o.sampleRate := by
    unfold AudioBuffer.duration
    field_simp
  have h3 : (o.frameCount : ℚ) ≤ totalDuration o segs * o.sampleRate := by
    rw [h2]
    exact mul_le_mul_of_nonneg_right (duration_le_totalDuration o segs)
      (le_of_lt hsr)
  have h4 : (o.frameCount : ℤ) ≤ ⌊totalDuration o segs * o.sampleRate⌋ := by
    apply Int.le_floor.mpr
    push_cast
    exact h3
  unfold masterLen
  omega

lemma sampleAt_of_ge (o : AudioBuffer) (ch i : ℕ) (hwf : o.wellFormed)
    (hi : o.frameCount ≤ i) : sampleAt o ch i = 0 := by
  unfold sampleAt
  apply List.getD_eq_default
  have hpos : 0 < o.channels.length := hwf.2.1
  have hlt : min ch (o.channels.length - 1) < o.channels.length := by omega
  rw [List.getD_eq_getElem _ _ hlt, hwf.2.2 _ (List.getElem_mem hlt)]
  exact hi

/-- C8: in `exportMix`, a segment whose audio is null contributes nothing
— silence — to the rendered master (no error is possible: the model is
total), and when every segment's audio is null the whole master equals the
(possibly muted) background bed alone: `backgroundVolume * original` when
the volume is positive, silence otherwise. -/
theorem exportMix_null_segments (o : AudioBuffer) (segs : List Segment)
    (v : ℚ) (hwf : o.wellFormed)
    (h : ∀ s ∈ segs, s.audioBuffer = none) :
    (∀ s ∈ segs, ∀ ch i, segmentContribution o.sampleRate ch s i = 0) ∧
    ∀ ch, ch < 2 → ∀ i,
      ((exportMixRendered o segs v).channels.getD ch []).getD i 0 =
        if v > 0 then v * sampleAt o ch i else 0 := by
  constructor
  · intro s hs ch i
    exact segmentContribution_none _ _ _ _ (h s hs)
  · intro ch hch i
    rcases Nat.lt_or_ge i (masterLen o segs) with hi | hi
    · rw [exportMixRendered_getD o segs v ch i hch hi]
      unfold mixSample
      rw [foldl_add_contrib_zero segs _ 0
        (fun s hs => segmentContribution_none _ _ _ _ (h s hs)), add_zero]
    · rw [exportMixRendered_getD_of_ge o segs v ch i hi]
      have hs0 : sampleAt o ch i = 0 :=
        sampleAt_of_ge o ch i hwf
          (le_trans (frameCount_le_masterLen o segs hwf.1) hi)
      rw [hs0]
      split
      · rw [mul_zero]
      · rfl

/-- Witness for C8: with a mono two-frame original at 2 Hz, one null
segment and a muted background, frame 0 of channel 0 renders as silence. -/
theorem exportMix_null_segments_witness :
    ((exportMixRendered ⟨2, [[1, 1]]⟩ [⟨0, 1, none⟩] 0).channels.getD 0
      []).getD 0 0 =
      if (0 : ℚ) > 0 then (0 : ℚ) * sampleAt ⟨2, [[1, 1]]⟩ 0 0 else 0 :=
  (exportMix_null_segments ⟨2, [[1, 1]]⟩ [⟨0, 1, none⟩] 0
    ⟨by norm_num, by norm_num, by
      intro c hc
      rw [List.mem_singleton] at hc
      subst hc
      rfl⟩
    (by
      intro s hs
      rw [List.mem_singleton] at hs
      subst hs
      rfl)).2 0 (by norm_num) 0

lemma frameCount_map_ranges (sr : ℚ) (chs : List (List ℚ)) (m : ℕ)
    (g : ℕ → ℚ) (hne : chs ≠ []) :
    (⟨sr, chs.map (fun _ => (List.range m).map g)⟩ : AudioBuffer).frameCount
      = m := by
  cases chs with
  | nil => exact absurd rfl hne
  | cons c cs =>
    show ((List.range m).map g).length = m
    rw [List.length_map, List.length_range]

/-- C9 (modelled from the spec, no stretch code exists under `src/`): a
buffer shorter than one grain makes `timeStretch` fail with
`InputTooShort` rather than return anything truncated or empty; for a
buffer of at least one grain and any positive factor `f` the output is
produced and its frame count is within ±1 of
`⌊inputFrameCount / f⌋` (in the model it is exactly that floor). -/
theorem timeStretch_spec (b : AudioBuffer) (f : ℚ) (hf : 0 < f) :
    (b.frameCount < grainLength →
      timeStretch b f = .error .inputTooShort) ∧
    (grainLength ≤ b.frameCount →
      ∃ out, timeStretch b f = .ok out ∧
        ((out.frameCount : ℤ) - ⌊(b.frameCount : ℚ) / f⌋).natAbs ≤ 1) := by
  constructor
  · intro h
    unfold timeStretch
    rw [if_pos h]
  · intro h
    have hne : b.channels ≠ [] := by
      intro hnil
      unfold AudioBuffer.frameCount at h
      rw [hnil] at h
      simp [grainLength] at h
    unfold timeStretch
    rw [if_neg (not_lt.mpr h)]
    by_cases hf1 : f = 1
    · rw [if_pos hf1]
      refine ⟨b, rfl, ?_⟩
      rw [hf1, div_one, Int.floor_natCast]
      omega
    · rw [if_neg hf1]
      refine ⟨_, rfl, ?_⟩
      rw [frameCount_map_ranges _ _ _ _ hne]
      have hnn : 0 ≤ ⌊(b.frameCount : ℚ) / f⌋ :=
        Int.floor_nonneg.mpr (by positivity)
      omega

/-- Witness for C9: a one-frame buffer is shorter than the 2048-frame
grain, so stretching it by factor 2 fails with `InputTooShort`. -/
theorem timeStretch_spec_witness :
    timeStretch ⟨24000, [[0]]⟩ 2 = .error .inputTooShort :=
  (timeStretch_spec ⟨24000, [[0]]⟩ 2 (by norm_num)).1 (by decide)
